import Mathlib

/-!
Verification of the update-orchestration core of the server-utils repository.

The Python sources are shallowly embedded:
* `GitoliteRequest.main` (request ingestion) becomes `gitoliteMain`, a pure
  function of the environment and of the success of its external effects.
* `RequestHandler` (queue drain, validation, dispatch, deletion guard)
  becomes `requestFilePaths`, `validateRequest`, `updateSafely`,
  `deleteRequest`, `handleExistingRequests`; the side effects performed by
  `SafeUpdater` are recorded as an explicit `Event` trace.
* The database scripts `remove_submissions` and `add_users` from
  `DatabaseUtils.py` become transition functions on an explicit relational
  `Database` state.

Python call-sites of `SafeUpdater.update_contest` pass their arguments by
keyword, so keyword binding is modelled explicitly (`pyCallBinds`): a call
whose keyword set does not match the parameter list of the callee raises a
`TypeError`, exactly as in Python.
-/

namespace ServerUtils

/-! ## Lexicographic order on strings, as used by Python list.sort()

Python sorts the request file names as byte strings.  `lexLt` is the
standard lexicographic strict order on character lists, proved below to
agree with Mathlib's order on `String`, so that sortedness statements can
be phrased with the ambient `≤`. -/

def lexLt : List Char → List Char → Bool
  | [], [] => false
  | [], _ :: _ => true
  | _ :: _, [] => false
  | a :: as, b :: bs => if a < b then true else if b < a then false else lexLt as bs

def strLt (a b : String) : Bool := lexLt a.data b.data

def strLe (a b : String) : Bool := !(strLt b a)

/-! ## Python string primitives used by the sources -/

/-- Python `s.startswith(pre)`. -/
def pyStartswith (s pre : String) : Bool := decide (pre.data <+: s.data)

/-- Python `s.endswith(suffix)`. -/
def pyEndswith (s suffix : String) : Bool := decide (suffix.data <:+ s.data)

/-- Python `sub in s` (substring containment). -/
def pyInStr (sub s : String) : Bool := decide (sub.data <:+: s.data)

/-- Python `repo.split("/")[0]`: the part of the string before the first
slash (the whole string when there is no slash, empty for the empty
string), as computed in `RequestHandler._act` and
`RequestHandler._validate_request`. -/
def repoType (repo : String) : String := String.mk (repo.data.takeWhile (fun c => c != '/'))

/-- Python `repo.replace("/", ".")` from `GitoliteRequest.main`; the pattern
is the single character slash, so the replacement is a character map. -/
def replaceSlashes (repo : String) : String :=
  String.mk (repo.data.map (fun c => if c == '/' then '.' else c))

/-! ## Request record content (`yaml.safe_load` result) and validation

`RequestHandler._validate_request` checks the parsed YAML value: it must be
a dictionary with string values under the keys `user` and `repo`, and the
first path segment of `repo` must be one of the three known repo types. -/

inductive PyValue where
  | str (s : String)
  | int (n : Int)
  | boolean (b : Bool)
  | pyNone
  | listVal (items : List PyValue)
  | dict (entries : List (String × PyValue))

/-- Python `request["key"]` on a dictionary (keys are unique in a YAML
mapping; the first matching entry is taken). -/
def dictGet (entries : List (String × PyValue)) (key : String) : Option PyValue :=
  match entries.find? (fun kv => kv.1 == key) with
  | Option.some kv => Option.some kv.2
  | Option.none => Option.none

def isStringValue : PyValue → Bool
  | .str _ => true
  | _ => false

/-- Embedding of `RequestHandler._validate_request`, preserving the order
of the checks in the source. -/
def validateRequest : PyValue → Except String Unit
  | .dict entries =>
    match dictGet entries "user" with
    | Option.none => .error "Not found user key in request."
    | Option.some userVal =>
      if !(isStringValue userVal) then .error "Expected user to be a string."
      else
        match dictGet entries "repo" with
        | Option.none => .error "Not found repo key in request."
        | Option.some repoVal =>
          match repoVal with
          | .str repo =>
            if ["tasks", "contests", "users"].contains (repoType repo) then .ok ()
            else .error ("Expected repository type to be tasks, contests, or users: " ++ repo)
          | _ => .error "Expected repo to be a string."
  | _ => .error "Expected request to be a dictionary."

/-! ## The update engine (`RequestHandler._update_safely` and `SafeUpdater`)

Side effects of an update are recorded as a trace of events.  A run of a
piece of the engine returns the events it performed together with an
optional raised exception (`Option.some msg`); an exception aborts the rest
of the run, exactly like Python exception propagation. -/

inductive Event where
  | updateRepo (repo : String) (allowClone : Bool)
  | generateTask (repo : String)
  | updateContest (contest : String) (update generateNew addUsers updateUsers : Bool)
      (autoSubmit : List String) (autoSubmitNew : Bool)
deriving DecidableEq

def Event.isUpdateContest : Event → Bool
  | .updateContest _ _ _ _ _ _ _ => true
  | _ => false

/-- Parameter names of `SafeUpdater.update_contest`, in order, after
`self`, copied from its `def` line:
`def update_contest(self, repo, update, generate_new, add_users,
update_users, auto_submit, auto_submit_new)`. -/
def updateContestParams : List String :=
  ["repo", "update", "generate_new", "add_users", "update_users",
   "auto_submit", "auto_submit_new"]

/-- Keyword names used at every `updater.update_contest(...)` call site in
`RequestHandler._update_safely`: the contest repo is passed positionally
and the flags by keyword, among them `add_new_users`. -/
def handlerUpdateContestKeywords : List String :=
  ["update", "generate_new", "add_new_users", "update_users",
   "auto_submit", "auto_submit_new"]

/-- Python call binding for a call with `numPositional` positional
arguments and keyword arguments named `keywords` against a callee whose
parameters (all without defaults) are `params`: every keyword must name a
declared parameter, must not rebind a positionally bound one, no keyword
repeats, and every remaining parameter must be bound.  A call that fails
this check raises `TypeError`. -/
def pyCallBinds (params : List String) (numPositional : Nat) (keywords : List String) : Bool :=
  keywords.all (fun k => params.contains k)
    && keywords.all (fun k => !((params.take numPositional).contains k))
    && decide keywords.Nodup
    && (params.drop numPositional).all (fun p => keywords.contains p)

/-- One `updater.update_contest(contest, update=True, generate_new=True,
add_new_users=True, update_users=..., auto_submit=..., auto_submit_new=...)`
call from `RequestHandler._update_safely`.  If the keywords bind, the
contest-update procedure runs (recorded as one `updateContest` event);
otherwise Python raises `TypeError` before the callee body starts. -/
def callHandlerUpdateContest (contest : String) (updateUsers : Bool)
    (autoSubmit : List String) (autoSubmitNew : Bool) : List Event × Option String :=
  if pyCallBinds updateContestParams 1 handlerUpdateContestKeywords then
    ([Event.updateContest contest true true true updateUsers autoSubmit autoSubmitNew],
     Option.none)
  else
    ([], Option.some "TypeError: update_contest got an unexpected keyword argument add_new_users")

/-- Run a loop body over a list, propagating the first raised exception and
keeping the events performed up to it (Python `for` with an exception). -/
def runSequence : List String → (String → List Event × Option String) → List Event × Option String
  | [], _ => ([], Option.none)
  | c :: rest, f =>
    match f c with
    | (evs, Option.some e) => (evs, Option.some e)
    | (evs, Option.none) =>
      match runSequence rest f with
      | (evs2, err) => (evs ++ evs2, err)

/-- A task entry of a contest manifest (`module.yaml`): `{short_name, path}`. -/
structure ContestTask where
  shortName : String
  path : String
deriving DecidableEq

/-- Worker configuration: the active-contest set (`self.contests`, iterated
in some fixed order) and the synchronized `module.yaml` manifest of each
contest on disk (`Option.none` when the file is absent, in which case
`open` raises). -/
structure HandlerConfig where
  contests : List String
  manifests : String → Option (List ContestTask)

/-- Embedding of `RequestHandler._get_task_contests`: every active contest
whose manifest lists a task entry with `path` equal to the given task repo
(one occurrence per matching entry, as in the source). -/
def getTaskContestsAux (manifests : String → Option (List ContestTask))
    (taskRepo : String) : List String → Except String (List String)
  | [] => .ok []
  | contest :: rest =>
    match manifests contest with
    | Option.none => .error ("module.yaml not found for " ++ contest)
    | Option.some tasks =>
      match getTaskContestsAux manifests taskRepo rest with
      | .error e => .error e
      | .ok acc =>
        .ok (((tasks.filter (fun t => t.path == taskRepo)).map (fun _ => contest)) ++ acc)

def getTaskContests (cfg : HandlerConfig) (taskRepo : String) : Except String (List String) :=
  getTaskContestsAux cfg.manifests taskRepo cfg.contests

/-- Embedding of `RequestHandler._update_safely`, dispatching on the first
path segment of the repo identity.  Returns the performed events and the
exception, if one was raised (to be caught and logged by `_act`). -/
def updateSafely (cfg : HandlerConfig) (repo : String) : List Event × Option String :=
  let rt := repoType repo
  if rt == "contests" then
    let syncEvents := [Event.updateRepo repo true]
    if cfg.contests.contains repo then
      match callHandlerUpdateContest repo true [] true with
      | (evs, err) => (syncEvents ++ evs, err)
    else
      (syncEvents, Option.none)
  else if rt == "users" then
    runSequence cfg.contests (fun c => callHandlerUpdateContest c true [] false)
  else if rt == "tasks" then
    match getTaskContests cfg repo with
    | .error e => ([], Option.some e)
    | .ok taskContests =>
      if taskContests.isEmpty then ([], Option.none)
      else
        let genEvents := [Event.updateRepo repo true, Event.generateTask repo]
        match runSequence taskContests (fun c => callHandlerUpdateContest c false [repo] true) with
        | (evs, err) => (genEvents ++ evs, err)
  else
    ([], Option.some ("Unknown repository type: " ++ rt))

/-- Embedding of `RequestHandler._act` on a validated request: extract the
repo, run `_update_safely` under the repository lock, and swallow (log)
any exception. -/
def act (cfg : HandlerConfig) : PyValue → List Event × Option String
  | .dict entries =>
    match dictGet entries "repo" with
    | Option.some (.str repo) => updateSafely cfg repo
    | _ => ([], Option.some "KeyError: repo")
  | _ => ([], Option.some "TypeError: request is not a dictionary")

/-! ## The request queue drain (`RequestHandler.handle_existing_requests`)

The filesystem is abstracted by an environment: whether a path is a file,
the parsed content a read of it yields (or the exception the read raises),
and whether `os.remove` succeeds. -/

structure FsEnv where
  isFile : String → Bool
  content : String → Except String PyValue
  removeOk : String → Bool

/-- Embedding of the listing pipeline of `handle_existing_requests`: list
the directory, keep the `.yaml` names, join with the directory, keep
regular files, and sort (Python `list.sort()`, ascending lexicographic). -/
def requestFilePaths (dir : String) (listing : List String) (isFile : String → Bool) :
    List String :=
  ((((listing.filter (fun name => pyEndswith name ".yaml")).map
      (fun name => dir ++ "/" ++ name)).filter isFile).insertionSort
    (fun a b => strLe a b = true))

inductive DeleteOutcome where
  | notAFile
  | aborted
  | removed
  | removeFailed
deriving DecidableEq

/-- Embedding of `RequestHandler._delete_request`: skip (with a log line)
when the resolved path is not a regular file; otherwise abort the whole
worker (`sys.exit(1)`) unless the path starts with the requests directory
path; otherwise attempt `os.remove`. -/
def deleteRequest (dir path : String) (isFile removeOk : Bool) : DeleteOutcome :=
  if !isFile then .notAFile
  else if !(pyStartswith path dir) then .aborted
  else if removeOk then .removed
  else .removeFailed

/-- A resolved absolute path lies inside a directory (the reading of the
specification text in claim C6): the directory path followed by the
separator is a prefix of the path. -/
def insideDir (dir path : String) : Bool := decide ((dir ++ "/").data <+: path.data)

/-- Embedding of `RequestHandler.handle_request`: read the record under the
mailbox lock (read failure logs and returns `false`), validate it (failure
logs and returns `false`), then `_act` on it; `_act` logs and swallows any
exception, so a validated request always yields `true`. -/
def handleRequest (cfg : HandlerConfig) (env : FsEnv) (path : String) : Bool × List Event :=
  match env.content path with
  | .error _ => (false, [])
  | .ok req =>
    match validateRequest req with
    | .error _ => (false, [])
    | .ok _ => (true, (act cfg req).1)

/-- What the drain loop does with one queued record: handle it, then delete
it regardless of the outcome. -/
structure ProcessedItem where
  path : String
  success : Bool
  events : List Event
  deletion : DeleteOutcome
deriving DecidableEq

def processOne (cfg : HandlerConfig) (env : FsEnv) (dir path : String) : ProcessedItem :=
  match handleRequest cfg env path with
  | (succ, evs) =>
    { path := path, success := succ, events := evs,
      deletion := deleteRequest dir path (env.isFile path) (env.removeOk path) }

/-- Embedding of `RequestHandler.handle_existing_requests`: the sorted
eligible records are processed one at a time, strictly in order (the loop
body finishes, sleeps the cooling interval, and only then takes the next
record). -/
def handleExistingRequests (cfg : HandlerConfig) (env : FsEnv) (dir : String)
    (listing : List String) : List ProcessedItem :=
  (requestFilePaths dir listing env.isFile).map (processOne cfg env dir)

/-! ## Request ingestion (`GitoliteRequest.main`)

The push hook turns the gitolite environment variables into one request
record file.  `yaml.safe_dump` of the two-key string mapping
`{"user": ..., "repo": ...}` emits block style with sorted keys, one
`key: value` line per entry; that concrete serialization is modelled by
`dumpRequestInfo`, and `parseFlatYaml` is the corresponding reading of such
content back into a mapping. -/

def requestsDir : String := "/var/lib/gitolite3/requests"

/-- The record file name built in `GitoliteRequest.main`:
`<timestamp>_<user>_<repo-with-dots-for-slashes>.yaml`. -/
def requestName (timeString user repo : String) : String :=
  timeString ++ "_" ++ user ++ "_" ++ replaceSlashes repo ++ ".yaml"

/-- Serialized record content: `yaml.safe_dump({"user": user, "repo":
repo})`, keys in sorted order (`repo` before `user`), one line each. -/
def dumpRequestInfo (user repo : String) : List Char :=
  "repo: ".data ++ repo.data ++ ['\n'] ++ "user: ".data ++ user.data ++ ['\n']

def splitOnChar (sep : Char) : List Char → List (List Char)
  | [] => [[]]
  | c :: rest =>
    if c = sep then [] :: splitOnChar sep rest
    else
      match splitOnChar sep rest with
      | [] => [[c]]
      | l :: ls => (c :: l) :: ls

def parseLine (line : List Char) : Option (String × String) :=
  let key := line.takeWhile (fun c => c != ':')
  match line.drop key.length with
  | ':' :: ' ' :: value => Option.some (String.mk key, String.mk value)
  | _ => Option.none

/-- Read flat block-style YAML (`key: value` lines) back into a mapping. -/
def parseFlatYaml (content : List Char) : Option (List (String × String)) :=
  ((splitOnChar '\n' content).filter (fun l => l ≠ [])).mapM parseLine

/-- Environment of one hook invocation: the two gitolite identity
variables, the formatted timestamp, and the outcome of the three external
effects (serialization, mailbox-lock acquisition, record write). -/
structure IngestEnv where
  glUser : Option String
  glRepo : Option String
  timeString : String
  serializeOk : Bool
  lockOk : Bool
  writeOk : Bool

inductive IngestAction where
  | lockAcquire
  | writeFile (path : String) (content : List Char)
  | unlock
deriving DecidableEq

def IngestAction.isWrite : IngestAction → Bool
  | .writeFile _ _ => true
  | _ => false

/-- Embedding of `GitoliteRequest.main`: returns the exit status and the
externally visible actions, in order.  Status 1: identity variable absent;
2: identity variable empty; 3: serialization failed; 4: mailbox lock not
acquired within its timeout; 5: record write failed (the lock is still
released by the `finally` block); 0: success. -/
def gitoliteMain (env : IngestEnv) : Nat × List IngestAction :=
  match env.glRepo, env.glUser with
  | Option.none, _ => (1, [])
  | _, Option.none => (1, [])
  | Option.some repo, Option.some user =>
    if repo == "" || user == "" then (2, [])
    else
      let path := requestsDir ++ "/" ++ requestName env.timeString user repo
      if !env.serializeOk then (3, [])
      else if !env.lockOk then (4, [])
      else if !env.writeOk then (5, [IngestAction.lockAcquire, IngestAction.unlock])
      else
        (0, [IngestAction.lockAcquire,
             IngestAction.writeFile path (dumpRequestInfo user repo),
             IngestAction.unlock])

/-! ## The contest database (`DatabaseUtils.py`)

A relational model of the rows the two scripts under verification touch.
Users, contests and tasks are identified by their unique names, a
participation by its (contest, user) pair; a submission belongs to a
participation and a task.  A submission result is `Option.none` when no
result row exists, `Option.some Option.none` when the result has a null
score (grading still in progress), and `Option.some (Option.some n)` when
a final score is recorded (only nullness of the score is ever inspected by
the code under verification, so the score carrier is `Int`). -/

structure DbUser where
  username : String
  firstName : String
  lastName : String
  password : String
deriving DecidableEq

structure DbParticipation where
  contest : String
  username : String
  hidden : Bool
  unrestricted : Bool
deriving DecidableEq

structure DbTask where
  name : String
  contest : String
deriving DecidableEq

structure DbSubmission where
  contest : String
  username : String
  task : String
  result : Option (Option Int)
deriving DecidableEq

@[ext]
structure Database where
  users : List DbUser
  contests : List String
  tasks : List DbTask
  participations : List DbParticipation
  submissions : List DbSubmission
deriving DecidableEq

/-- The submissions of the given participation to the given task
(`get_user_task_submissions`). -/
def userTaskSubmissions (db : Database) (contestName username taskName : String) :
    List DbSubmission :=
  db.submissions.filter
    (fun s => s.contest == contestName && s.username == username && s.task == taskName)

/-- Python `result is None or result.score is None` from
`remove_submissions`. -/
def unscored (s : DbSubmission) : Bool :=
  match s.result with
  | Option.none => true
  | Option.some score => score.isNone

/-- Embedding of `DatabaseUtils.remove_submissions`, preserving the order
of the checks: the `autotester` substring guard raises before the session
opens; the entity lookups raise when missing; no submissions at all is a
success; any unscored submission returns `False` without deleting; only
when every submission is scored are they all deleted. -/
def removeSubmissions (db : Database) (contestName taskName username : String) :
    Except String (Database × Bool) :=
  if !(pyInStr "autotester" username) then
    .error ("Not removing submissions of user " ++ username ++ ", they are not an autotester.")
  else if !(db.users.any (fun u => u.username == username)) then
    .error ("User not found: " ++ username)
  else if !(db.contests.contains contestName) then
    .error ("Contest not found: " ++ contestName)
  else if !(db.participations.any (fun p => p.contest == contestName && p.username == username)) then
    .error ("No participation of " ++ username ++ " in " ++ contestName ++ ".")
  else
    match db.tasks.find? (fun tk => tk.name == taskName) with
    | Option.none => .error ("Task not found: " ++ taskName)
    | Option.some tk =>
      if tk.contest != contestName then
        .error ("Task " ++ taskName ++ " not in " ++ contestName ++ ".")
      else
        let submissions := userTaskSubmissions db contestName username taskName
        if submissions.isEmpty then .ok (db, true)
        else if submissions.any unscored then .ok (db, false)
        else
          .ok ({ db with
                  submissions := db.submissions.filter
                    (fun s => !(s.contest == contestName && s.username == username
                                && s.task == taskName)) },
               true)

/-! ## `DatabaseUtils.add_users` -/

/-- One entry of the users file handed to `add_users`: required `username`
and `password`; `first_name`, `last_name`, `hidden`, `unrestricted` are
read with `dict.get` defaults (empty string, empty string, false, false),
folded here into total fields. -/
structure UserInfo where
  username : String
  password : String
  firstName : String
  lastName : String
  hidden : Bool
  unrestricted : Bool
deriving DecidableEq

def mkDbUser (i : UserInfo) : DbUser :=
  { username := i.username, firstName := i.firstName,
    lastName := i.lastName, password := i.password }

def mkParticipation (c : String) (i : UserInfo) : DbParticipation :=
  { contest := c, username := i.username,
    hidden := i.hidden, unrestricted := i.unrestricted }

/-- The loop body of `add_users`: for each user info, create the user
unless the username was present when the session opened, and create a
participation when the contest lookup succeeded and the user was not
already participating when the session opened.  (`existingU` and
`existingP` are computed once before the loop and never refreshed, as in
the source.) -/
def addUsersLoop (existingU existingP : List String) (contestOpt : Option String)
    (acc : Database) : List UserInfo → Database
  | [] => acc
  | i :: rest =>
    let acc1 :=
      if existingU.contains i.username then acc
      else { acc with users := acc.users ++ [mkDbUser i] }
    let acc2 :=
      match contestOpt with
      | Option.some c =>
        if existingP.contains i.username then acc1
        else { acc1 with participations := acc1.participations ++ [mkParticipation c i] }
      | Option.none => acc1
    addUsersLoop existingU existingP contestOpt acc2 rest

/-- Embedding of `DatabaseUtils.add_users`: snapshot the existing usernames
and (when the contest exists — a failed contest lookup is caught and
disables participation creation) the usernames already participating, then
run the loop and commit. -/
def addUsers (db : Database) (usersInfo : List UserInfo) (contestName : Option String) :
    Database :=
  let existingU := db.users.map (fun u => u.username)
  let contestOpt :=
    match contestName with
    | Option.some c => if db.contests.contains c then Option.some c else Option.none
    | Option.none => Option.none
  let existingP :=
    match contestOpt with
    | Option.some c =>
      ((db.participations.filter (fun p => p.contest == c)).map (fun p => p.username))
    | Option.none => []
  addUsersLoop existingU existingP contestOpt db usersInfo

/-! ## Concrete instances used to evaluate the embedding

A worker configuration with two active contests whose manifests both
reference the same task (the scenario of the spec: task `sum` in active
contests `A` and `B`, inactive contests absent from the set), one with no
referencing contest, and a small database with an autotester whose task has
one scored and one unscored submission. -/

def cfgTaskPush : HandlerConfig :=
  { contests := ["contests/A", "contests/B"],
    manifests := fun c =>
      if c == "contests/A" then
        Option.some [{ shortName := "sum", path := "tasks/devs/joe/sum" }]
      else if c == "contests/B" then
        Option.some [{ shortName := "sum", path := "tasks/devs/joe/sum" }]
      else Option.none }

def cfgUsersPush : HandlerConfig :=
  { contests := ["contests/finals", "contests/semis"],
    manifests := fun _ => Option.none }

def sampleDb : Database :=
  { users := [{ username := "autotester1", firstName := "Auto", lastName := "Tester",
                password := "pw" },
              { username := "alice", firstName := "Alice", lastName := "A",
                password := "pw2" }],
    contests := ["contests/A"],
    tasks := [{ name := "sum", contest := "contests/A" }],
    participations := [{ contest := "contests/A", username := "autotester1",
                         hidden := false, unrestricted := false },
                       { contest := "contests/A", username := "alice",
                         hidden := false, unrestricted := false }],
    submissions := [{ contest := "contests/A", username := "autotester1", task := "sum",
                      result := Option.some (Option.some 100) },
                    { contest := "contests/A", username := "autotester1", task := "sum",
                      result := Option.some Option.none }] }

/-- A users file listing one new user (`bob`) and one user already present
and participating (`alice`). -/
def sampleUsersInfo : List UserInfo :=
  [{ username := "bob", password := "pw3", firstName := "Bob", lastName := "B",
     hidden := false, unrestricted := false },
   { username := "alice", password := "pw2", firstName := "Alice", lastName := "A",
     hidden := false, unrestricted := false }]

/-- A fully successful ingestion environment for the push of `joe` to
`tasks/devs/joe/sum`, and variants in which exactly one stage fails. -/
def ingestEnvOk : IngestEnv :=
  { glUser := Option.some "joe", glRepo := Option.some "tasks/devs/joe/sum",
    timeString := "2000-01-01.10.00.00",
    serializeOk := true, lockOk := true, writeOk := true }

def ingestEnvMissing : IngestEnv :=
  { ingestEnvOk with glRepo := Option.none }

def ingestEnvEmpty : IngestEnv :=
  { ingestEnvOk with glUser := Option.some "" }

def ingestEnvNoSerialize : IngestEnv :=
  { ingestEnvOk with serializeOk := false }

def ingestEnvNoLock : IngestEnv :=
  { ingestEnvOk with lockOk := false }

def ingestEnvNoWrite : IngestEnv :=
  { ingestEnvOk with writeOk := false }

/-- A filesystem environment in which every path is a regular file and
every removal succeeds; record contents are irrelevant for ordering. -/
def fsEnvTriv : FsEnv :=
  { isFile := fun _ => true,
    content := fun _ => .error "unread",
    removeOk := fun _ => true }

/-- A filesystem environment in which the record at `/mail/a.yaml` parses
to a scalar (not a mapping) and every other record is well-formed. -/
def fsEnvMalformed : FsEnv :=
  { isFile := fun _ => true,
    content := fun p =>
      if p == "/mail/a.yaml" then .ok (PyValue.str "oops")
      else .ok (PyValue.dict [("user", PyValue.str "joe"), ("repo", PyValue.str "users")]),
    removeOk := fun _ => true }

/-! ## Order infrastructure lemmas -/

theorem lexLt_iff (as bs : List Char) : lexLt as bs = true ↔ List.Lex (· < ·) as bs := by
  induction as generalizing bs with
  | nil => cases bs <;> simp [lexLt, List.Lex.nil]
  | cons a as ih =>
    cases bs with
    | nil => simp [lexLt]
    | cons b bs =>
      by_cases hab : a < b
      · simp [lexLt, hab, List.Lex.rel]
      · by_cases hba : b < a
        · simp only [lexLt, if_neg hab, if_pos hba]
          constructor
          · intro h; exact (Bool.false_ne_true h).elim
          · intro h
            cases h with
            | rel h => exact absurd h hab
            | cons h => exact absurd rfl (ne_of_gt hba)
        · have hEq : a = b := le_antisymm (not_lt.mp hba) (not_lt.mp hab)
          subst hEq
          simp only [lexLt, if_neg hab, if_neg hba]
          rw [ih, List.Lex.cons_iff]

theorem strLt_iff (a b : String) : strLt a b = true ↔ a < b := by
  rw [String.lt_iff_toList_lt]
  exact lexLt_iff a.data b.data

theorem strLe_iff (a b : String) : strLe a b = true ↔ a ≤ b := by
  unfold strLe
  rw [Bool.not_eq_true', ← Bool.not_eq_true, strLt_iff]
  exact not_lt

theorem lex_append_lt_iff (p a b : List Char) :
    (p ++ a : List Char) < (p ++ b) ↔ a < b := by
  show List.Lex _ _ _ ↔ List.Lex _ _ _
  induction p with
  | nil => simp
  | cons c cs ih => simpa [List.Lex.cons_iff] using ih

theorem str_append_lt_iff (p a b : String) : (p ++ a) < (p ++ b) ↔ a < b := by
  rw [String.lt_iff_toList_lt, String.lt_iff_toList_lt]
  show p.data ++ a.data < p.data ++ b.data ↔ _
  exact lex_append_lt_iff p.data a.data b.data

theorem str_append_le_iff (p a b : String) : (p ++ a) ≤ (p ++ b) ↔ a ≤ b := by
  rw [← not_lt, ← not_lt, str_append_lt_iff]

/-! ## Claims C1 and C2: the task and users dispatch paths -/

/-- Claim C1 (settled against the code as written): on a push to a task
referenced by the manifests of exactly the two active contests A and B,
the handler synchronizes and generates the task exactly once, but then its
first `update_contest(...)` call raises `TypeError` — the call site passes
the keyword `add_new_users` while the parameter of
`SafeUpdater.update_contest` is named `add_users` — so no contest-update
procedure runs at all, for A, B, or anything else; the no-referencing-
contest half of the claim (no sync, no generation, no update) does hold. -/
theorem task_push_type_error_blocks_contest_updates :
    pyCallBinds updateContestParams 1 handlerUpdateContestKeywords = false
    ∧ updateSafely cfgTaskPush "tasks/devs/joe/sum"
        = ([Event.updateRepo "tasks/devs/joe/sum" true,
            Event.generateTask "tasks/devs/joe/sum"],
           Option.some "TypeError: update_contest got an unexpected keyword argument add_new_users")
    ∧ ((updateSafely cfgTaskPush "tasks/devs/joe/sum").1.filter Event.isUpdateContest) = []
    ∧ updateSafely cfgTaskPush "tasks/devs/joe/other" = ([], Option.none) := by
  decide

/-- Claim C2 (settled against the code as written): on a push to the users
repository, the handler loops over the active contests but its very first
`update_contest(...)` call raises `TypeError` for the same keyword-name
mismatch, so no contest-update procedure runs for any active contest. -/
theorem users_push_type_error_blocks_contest_updates :
    updateSafely cfgUsersPush "users"
        = ([], Option.some "TypeError: update_contest got an unexpected keyword argument add_new_users")
    ∧ ((updateSafely cfgUsersPush "users").1.filter Event.isUpdateContest) = [] := by
  decide

/-! ## Claim C10: the autotester substring guard -/

/-- Claim C10: for every database state, contest and task, calling
`remove_submissions` with a username that does not contain the substring
`autotester` raises (returns the guard error) and touches nothing. -/
theorem remove_submissions_requires_autotester_name
    (db : Database) (contestName taskName username : String)
    (hu : pyInStr "autotester" username = false) :
    removeSubmissions db contestName taskName username =
      .error ("Not removing submissions of user " ++ username
              ++ ", they are not an autotester.") := by
  unfold removeSubmissions
  rw [hu]
  simp

theorem remove_submissions_requires_autotester_name_witness :
    pyInStr "autotester" "joe" = false
    ∧ removeSubmissions sampleDb "contests/A" "sum" "joe" =
        .error "Not removing submissions of user joe, they are not an autotester." :=
  ⟨by decide,
   remove_submissions_requires_autotester_name sampleDb "contests/A" "sum" "joe" (by decide)⟩

/-! ## Claim C6: the deletion guard -/

/-- Claim C6 counterexample: with mailbox directory `/mail`, the path
`/mail2/r.yaml` resolves outside the mailbox directory, yet the guard of
`_delete_request` is a plain string-prefix test, so the file is removed;
moreover an outside path that is not an existing file is skipped without
any abort.  Both contradict the claim as stated. -/
theorem delete_request_guard_counterexample :
    deleteRequest "/mail" "/mail2/r.yaml" true true = DeleteOutcome.removed
    ∧ insideDir "/mail" "/mail2/r.yaml" = false
    ∧ deleteRequest "/mail" "/outside/r.yaml" false true = DeleteOutcome.notAFile := by
  decide

/-- Claim C6 (amended): a record is removed only if its resolved absolute
path starts with the mailbox directory path (a string-prefix check, which
also admits sibling directories sharing that prefix); a path that is an
existing file and fails the prefix check is never deleted and aborts the
whole worker; a path that is not an existing file is skipped with neither
deletion nor abort. -/
theorem delete_request_guard_amended
    (dir path : String) (isFile removeOk : Bool) :
    (deleteRequest dir path isFile removeOk = DeleteOutcome.removed →
        pyStartswith path dir = true ∧ isFile = true)
    ∧ (isFile = true → pyStartswith path dir = false →
        deleteRequest dir path isFile removeOk = DeleteOutcome.aborted)
    ∧ (isFile = false →
        deleteRequest dir path isFile removeOk = DeleteOutcome.notAFile) := by
  unfold deleteRequest
  cases isFile <;> cases removeOk <;> cases h : pyStartswith path dir <;> simp [h]

theorem delete_request_guard_amended_witness :
    (pyStartswith "/mail/r.yaml" "/mail" = true ∧ true = true)
    ∧ deleteRequest "/mail" "/elsewhere/r.yaml" true true = DeleteOutcome.aborted :=
  ⟨(delete_request_guard_amended "/mail" "/mail/r.yaml" true true).1 (by decide),
   (delete_request_guard_amended "/mail" "/elsewhere/r.yaml" true true).2.1 rfl (by decide)⟩

/-! ## Claim C5: removal refuses while grading is in progress -/

/-- Claim C5: for every database state, contest, task and autotester user
whose lookups succeed, if at least one of that user's submissions for the
task lacks a final score (no result row, or a null score), then
`remove_submissions` returns `False` and the database is unchanged (zero
deletions), even when every other submission is scored. -/
theorem remove_submissions_refuses_when_unscored
    (db : Database) (contestName taskName username : String)
    (hauto : pyInStr "autotester" username = true)
    (huser : db.users.any (fun x => x.username == username) = true)
    (hcontest : db.contests.contains contestName = true)
    (hpart : db.participations.any
        (fun p => p.contest == contestName && p.username == username) = true)
    (htask : ∃ tk, db.tasks.find? (fun x => x.name == taskName) = Option.some tk
        ∧ tk.contest = contestName)
    (hunscored : (userTaskSubmissions db contestName username taskName).any unscored = true) :
    removeSubmissions db contestName taskName username = .ok (db, false) := by
  obtain ⟨tk, hfind, hc⟩ := htask
  have hne : (userTaskSubmissions db contestName username taskName).isEmpty = false := by
    cases hl : userTaskSubmissions db contestName username taskName with
    | nil => rw [hl] at hunscored; simp at hunscored
    | cons a as => simp
  unfold removeSubmissions
  rw [hauto, huser, hcontest, hpart, hfind]
  simp [hc, hne, hunscored]

theorem remove_submissions_refuses_when_unscored_witness :
    (userTaskSubmissions sampleDb "contests/A" "autotester1" "sum").any unscored = true
    ∧ removeSubmissions sampleDb "contests/A" "sum" "autotester1" = .ok (sampleDb, false) :=
  ⟨by decide,
   remove_submissions_refuses_when_unscored sampleDb "contests/A" "sum" "autotester1"
     (by decide) (by decide) (by decide) (by decide)
     ⟨{ name := "sum", contest := "contests/A" }, by decide, rfl⟩ (by decide)⟩

/-! ## Claim C9: ingestion exit statuses -/

/-- Claim C9: ingestion returns 0 on success and a distinct, stable nonzero
exit status per failure cause — 1 when an identity variable is absent, 2
when one is empty, 3 when serialization fails, 4 when the mailbox lock is
not acquired within its timeout, 5 when the record write fails — the
absent and empty cases return before acquiring the lock and before
touching any file, and no failing exit ever writes a record. -/
theorem ingestion_distinct_exit_codes (env : IngestEnv) :
    ((env.glRepo = Option.none ∨ env.glUser = Option.none) → gitoliteMain env = (1, []))
    ∧ (∀ user repo, env.glUser = Option.some user → env.glRepo = Option.some repo →
        (repo == "" || user == "") = true → gitoliteMain env = (2, []))
    ∧ (∀ user repo, env.glUser = Option.some user → env.glRepo = Option.some repo →
        (repo == "" || user == "") = false → env.serializeOk = false →
        gitoliteMain env = (3, []))
    ∧ (∀ user repo, env.glUser = Option.some user → env.glRepo = Option.some repo →
        (repo == "" || user == "") = false → env.serializeOk = true →
        env.lockOk = false → gitoliteMain env = (4, []))
    ∧ (∀ user repo, env.glUser = Option.some user → env.glRepo = Option.some repo →
        (repo == "" || user == "") = false → env.serializeOk = true →
        env.lockOk = true → env.writeOk = false →
        gitoliteMain env = (5, [IngestAction.lockAcquire, IngestAction.unlock]))
    ∧ ((gitoliteMain env).1 ≠ 0 →
        ((gitoliteMain env).2.filter IngestAction.isWrite) = []) := by
  obtain ⟨gu, gr, ts, so, lo, wo⟩ := env
  refine ⟨?_, ?_, ?_, ?_, ?_, ?_⟩
  · rintro (rfl | rfl)
    · cases gu <;> rfl
    · cases gr <;> rfl
  · rintro user repo rfl rfl hemp
    simp_all [gitoliteMain]
  · rintro user repo rfl rfl hemp hs
    simp_all [gitoliteMain]
  · rintro user repo rfl rfl hemp hs hl
    simp_all [gitoliteMain]
  · rintro user repo rfl rfl hemp hs hl hw
    simp_all [gitoliteMain]
  · intro hne
    cases gr with
    | none => cases gu <;> rfl
    | some repo =>
      cases gu with
      | none => rfl
      | some user =>
        by_cases hemp : (repo == "" || user == "") = true
        · simp [gitoliteMain, hemp]
        · rw [Bool.not_eq_true] at hemp
          cases so with
          | false => simp [gitoliteMain, hemp]
          | true =>
            cases lo with
            | false => simp [gitoliteMain, hemp]
            | true =>
              cases wo with
              | false => simp [gitoliteMain, hemp, IngestAction.isWrite]
              | true =>
                exfalso
                apply hne
                simp [gitoliteMain, hemp]

theorem ingestion_distinct_exit_codes_witness :
    gitoliteMain ingestEnvMissing = (1, [])
    ∧ gitoliteMain ingestEnvEmpty = (2, [])
    ∧ gitoliteMain ingestEnvNoSerialize = (3, [])
    ∧ gitoliteMain ingestEnvNoLock = (4, [])
    ∧ gitoliteMain ingestEnvNoWrite = (5, [IngestAction.lockAcquire, IngestAction.unlock]) :=
  ⟨(ingestion_distinct_exit_codes ingestEnvMissing).1 (Or.inl rfl),
   (ingestion_distinct_exit_codes ingestEnvEmpty).2.1 "" "tasks/devs/joe/sum"
     rfl rfl (by decide),
   (ingestion_distinct_exit_codes ingestEnvNoSerialize).2.2.1 "joe" "tasks/devs/joe/sum"
     rfl rfl (by decide) rfl,
   (ingestion_distinct_exit_codes ingestEnvNoLock).2.2.2.1 "joe" "tasks/devs/joe/sum"
     rfl rfl (by decide) rfl rfl,
   (ingestion_distinct_exit_codes ingestEnvNoWrite).2.2.2.2.1 "joe" "tasks/devs/joe/sum"
     rfl rfl (by decide) rfl rfl rfl⟩

/-! ## Claim C8: one record per valid push, round-tripping its content -/

theorem splitOnChar_append (sep : Char) (a b : List Char) (h : sep ∉ a) :
    splitOnChar sep (a ++ sep :: b) = a :: splitOnChar sep b := by
  induction a with
  | nil => simp [splitOnChar]
  | cons c cs ih =>
    have hc : ¬(c = sep) := fun hEq => h (by rw [hEq]; exact List.mem_cons_self sep cs)
    have hcs : sep ∉ cs := fun hm => h (List.mem_cons_of_mem c hm)
    rw [List.cons_append]
    rw [splitOnChar, if_neg hc, ih hcs]

theorem takeWhile_stops (p : Char → Bool) (k : List Char) (hk : ∀ c ∈ k, p c = true)
    (c : Char) (hc : p c = false) (rest : List Char) :
    (k ++ c :: rest).takeWhile p = k := by
  induction k with
  | nil => simp [List.takeWhile_cons, hc]
  | cons d ds ih =>
    have hd : p d = true := hk d (List.mem_cons_self d ds)
    have hds : ∀ x ∈ ds, p x = true := fun x hx => hk x (List.mem_cons_of_mem d hx)
    rw [List.cons_append, List.takeWhile_cons, if_pos hd, ih hds]

theorem parseLine_keyval (k v : List Char) (hk : ∀ c ∈ k, (c != ':') = true) :
    parseLine (k ++ ':' :: ' ' :: v) = Option.some (String.mk k, String.mk v) := by
  have htake : (k ++ ':' :: ' ' :: v).takeWhile (fun c => c != ':') = k :=
    takeWhile_stops _ k hk ':' (by simp) _
  unfold parseLine
  simp only [htake, List.drop_left]

/-- Claim C8: for every push event with both identity fields present and
non-empty (and, as forced by the flat modelling of the YAML layer, with no
newline characters in them), ingestion performs exactly one record write;
the record is at `<dir>/<timestamp>_<user>_<repo-with-dots>.yaml` and
parsing its content yields exactly the mapping
`repo -> repo, user -> user`. -/
theorem ingestion_writes_one_roundtrip_record
    (env : IngestEnv) (user repo : String)
    (hu : env.glUser = Option.some user) (hr : env.glRepo = Option.some repo)
    (hne : (repo == "" || user == "") = false)
    (hs : env.serializeOk = true) (hl : env.lockOk = true) (hw : env.writeOk = true)
    (hun : ('\n' : Char) ∉ user.data) (hrn : ('\n' : Char) ∉ repo.data) :
    gitoliteMain env
      = (0, [IngestAction.lockAcquire,
             IngestAction.writeFile
               (requestsDir ++ "/" ++ requestName env.timeString user repo)
               (dumpRequestInfo user repo),
             IngestAction.unlock])
    ∧ ((gitoliteMain env).2.filter IngestAction.isWrite)
        = [IngestAction.writeFile
             (requestsDir ++ "/" ++ requestName env.timeString user repo)
             (dumpRequestInfo user repo)]
    ∧ parseFlatYaml (dumpRequestInfo user repo)
        = Option.some [("repo", repo), ("user", user)] := by
  have hmain : gitoliteMain env
      = (0, [IngestAction.lockAcquire,
             IngestAction.writeFile
               (requestsDir ++ "/" ++ requestName env.timeString user repo)
               (dumpRequestInfo user repo),
             IngestAction.unlock]) := by
    obtain ⟨gu, gr, ts, so, lo, wo⟩ := env
    simp only at hu hr hs hl hw
    subst hu hr hs hl hw
    simp [gitoliteMain, hne]
  have hA : ('\n' : Char) ∉ ("repo".data ++ ':' :: ' ' :: repo.data) := by
    simp only [List.mem_append, List.mem_cons]
    push_neg
    exact ⟨by decide, by decide, by decide, hrn⟩
  have hB : ('\n' : Char) ∉ ("user".data ++ ':' :: ' ' :: user.data) := by
    simp only [List.mem_append, List.mem_cons]
    push_neg
    exact ⟨by decide, by decide, by decide, hun⟩
  have hd : dumpRequestInfo user repo
      = ("repo".data ++ ':' :: ' ' :: repo.data)
        ++ '\n' :: (("user".data ++ ':' :: ' ' :: user.data) ++ '\n' :: []) := by
    simp [dumpRequestInfo, List.append_assoc]
  have hsplit : splitOnChar '\n' (dumpRequestInfo user repo)
      = ("repo".data ++ ':' :: ' ' :: repo.data)
        :: ("user".data ++ ':' :: ' ' :: user.data) :: [[]] := by
    rw [hd, splitOnChar_append _ _ _ hA, splitOnChar_append _ _ _ hB]
    rfl
  have hline1 : parseLine ("repo".data ++ ':' :: ' ' :: repo.data)
      = Option.some ("repo", repo) := parseLine_keyval _ _ (by decide)
  have hline2 : parseLine ("user".data ++ ':' :: ' ' :: user.data)
      = Option.some ("user", user) := parseLine_keyval _ _ (by decide)
  have hparse : parseFlatYaml (dumpRequestInfo user repo)
      = Option.some [("repo", repo), ("user", user)] := by
    unfold parseFlatYaml
    rw [hsplit]
    have hfilter : ((("repo".data ++ ':' :: ' ' :: repo.data)
          :: ("user".data ++ ':' :: ' ' :: user.data) :: [[]]).filter
            (fun l => l ≠ []))
        = ("repo".data ++ ':' :: ' ' :: repo.data)
          :: ("user".data ++ ':' :: ' ' :: user.data) :: [] := by
      simp
    rw [hfilter]
    rw [List.mapM_cons, List.mapM_cons, List.mapM_nil, hline1, hline2]
    rfl
  exact ⟨hmain, by rw [hmain]; simp [IngestAction.isWrite], hparse⟩

theorem ingestion_writes_one_roundtrip_record_witness :
    gitoliteMain ingestEnvOk
      = (0, [IngestAction.lockAcquire,
             IngestAction.writeFile
               "/var/lib/gitolite3/requests/2000-01-01.10.00.00_joe_tasks.devs.joe.sum.yaml"
               (dumpRequestInfo "joe" "tasks/devs/joe/sum"),
             IngestAction.unlock])
    ∧ parseFlatYaml (dumpRequestInfo "joe" "tasks/devs/joe/sum")
        = Option.some [("repo", "tasks/devs/joe/sum"), ("user", "joe")] := by
  have h := ingestion_writes_one_roundtrip_record ingestEnvOk "joe" "tasks/devs/joe/sum"
    rfl rfl (by decide) rfl rfl rfl (by decide) (by decide)
  exact ⟨h.1, h.2.2⟩

/-! ## Claims C3 and C4: the drain order and malformed records -/

theorem drain_paths (cfg : HandlerConfig) (env : FsEnv) (dir : String)
    (listing : List String) :
    ((handleExistingRequests cfg env dir listing).map (fun item => item.path))
      = requestFilePaths dir listing env.isFile := by
  unfold handleExistingRequests
  rw [List.map_map]
  have h : ((fun item => ProcessedItem.path item) ∘ processOne cfg env dir) = id :=
    funext fun p => rfl
  rw [h, List.map_id]

theorem sorted_requestFilePaths (dir : String) (listing : List String)
    (isFile : String → Bool) :
    List.Sorted (· ≤ ·) (requestFilePaths dir listing isFile) := by
  haveI : IsTotal String (fun a b => strLe a b = true) :=
    ⟨fun a b => by rw [strLe_iff, strLe_iff]; exact le_total a b⟩
  haveI : IsTrans String (fun a b => strLe a b = true) :=
    ⟨fun a b c hab hbc => by
      rw [strLe_iff] at hab hbc ⊢
      exact le_trans hab hbc⟩
  unfold requestFilePaths
  exact (List.sorted_insertionSort _ _).imp (fun hab => (strLe_iff _ _).mp hab)

theorem mem_requestFilePaths_startswith (dir path : String) (listing : List String)
    (isFile : String → Bool) (hmem : path ∈ requestFilePaths dir listing isFile) :
    pyStartswith path dir = true := by
  unfold requestFilePaths at hmem
  have hmem2 : path ∈ ((listing.filter (fun name => pyEndswith name ".yaml")).map
      (fun name => dir ++ "/" ++ name)).filter isFile :=
    (List.perm_insertionSort _ _).mem_iff.mp hmem
  have hmem3 := (List.mem_filter.mp hmem2).1
  obtain ⟨name, _, rfl⟩ := List.mem_map.mp hmem3
  unfold pyStartswith
  rw [decide_eq_true_eq]
  have hdata : ((dir ++ "/" ++ name)).data = dir.data ++ ("/".data ++ name.data) := by
    rw [String.data_append, String.data_append, List.append_assoc]
  rw [hdata]
  exact List.prefix_append dir.data _

/-- Claim C3: the drain handles queued records strictly one after another
in exactly the non-decreasing lexicographic order of their file names:
with records `r1 < r2 < r3` listed in any order, the processing sequence
is `r1, r2, r3`, and for every listing whatsoever the processing sequence
is sorted. -/
theorem drain_processes_requests_in_lex_order
    (cfg : HandlerConfig) (env : FsEnv) (dir : String) (listing : List String)
    (r1 r2 r3 : String)
    (h12 : strLt r1 r2 = true) (h23 : strLt r2 r3 = true)
    (hperm : listing.Perm [r1, r2, r3])
    (hyaml : ∀ r ∈ listing, pyEndswith r ".yaml" = true)
    (hfile : ∀ p, env.isFile p = true) :
    ((handleExistingRequests cfg env dir listing).map (fun item => item.path))
        = [dir ++ "/" ++ r1, dir ++ "/" ++ r2, dir ++ "/" ++ r3]
    ∧ ∀ (listing2 : List String),
        List.Sorted (· ≤ ·)
          ((handleExistingRequests cfg env dir listing2).map (fun item => item.path)) := by
  constructor
  · rw [drain_paths]
    have hfilter1 : listing.filter (fun name => pyEndswith name ".yaml") = listing :=
      List.filter_eq_self.mpr hyaml
    have hfilter2 : ((listing.map (fun name => dir ++ "/" ++ name)).filter env.isFile)
        = listing.map (fun name => dir ++ "/" ++ name) :=
      List.filter_eq_self.mpr (fun a _ => hfile a)
    have hpermPaths : (requestFilePaths dir listing env.isFile).Perm
        [dir ++ "/" ++ r1, dir ++ "/" ++ r2, dir ++ "/" ++ r3] := by
      unfold requestFilePaths
      rw [hfilter1, hfilter2]
      exact (List.perm_insertionSort _ _).trans (hperm.map _)
    have h12' : dir ++ "/" ++ r1 ≤ dir ++ "/" ++ r2 :=
      (str_append_le_iff _ _ _).mpr (le_of_lt ((strLt_iff _ _).mp h12))
    have h23' : dir ++ "/" ++ r2 ≤ dir ++ "/" ++ r3 :=
      (str_append_le_iff _ _ _).mpr (le_of_lt ((strLt_iff _ _).mp h23))
    have htarget : List.Sorted (· ≤ ·)
        [dir ++ "/" ++ r1, dir ++ "/" ++ r2, dir ++ "/" ++ r3] := by
      refine List.sorted_cons.mpr ⟨?_, List.sorted_cons.mpr ⟨?_, ?_⟩⟩
      · intro b hb
        rcases List.mem_cons.mp hb with rfl | hb
        · exact h12'
        · rcases List.mem_cons.mp hb with rfl | hb
          · exact le_trans h12' h23'
          · cases hb
      · intro b hb
        rcases List.mem_cons.mp hb with rfl | hb
        · exact h23'
        · cases hb
      · exact List.sorted_singleton _
    exact List.eq_of_perm_of_sorted hpermPaths
      (sorted_requestFilePaths dir listing env.isFile) htarget
  · intro listing2
    rw [drain_paths]
    exact sorted_requestFilePaths dir listing2 env.isFile

theorem drain_processes_requests_in_lex_order_witness :
    ((handleExistingRequests cfgUsersPush fsEnvTriv "/mail"
        ["b.yaml", "c.yaml", "a.yaml"]).map (fun item => item.path))
      = ["/mail/a.yaml", "/mail/b.yaml", "/mail/c.yaml"] := by
  have h := drain_processes_requests_in_lex_order cfgUsersPush fsEnvTriv "/mail"
    ["b.yaml", "c.yaml", "a.yaml"] "a.yaml" "b.yaml" "c.yaml"
    (by decide) (by decide) (by decide) (by decide) (fun p => rfl)
  exact h.1

/-- Claim C4: a queued record whose content is malformed (not a mapping,
missing `user` or `repo`, a non-string value, or an unrecognized repo
type — exactly the cases in which `_validate_request` raises) is handled
as a logged failure with no update action at all (its event trace is
empty), is deleted (its path necessarily passes the prefix guard since the
drain built it from the mailbox directory), and does not stop the drain:
the drain still processes exactly the whole sorted queue, this record
among them. -/
theorem malformed_request_logged_deleted_no_side_effects
    (cfg : HandlerConfig) (env : FsEnv) (dir : String) (listing : List String)
    (path : String) (v : PyValue) (msg : String)
    (hmem : path ∈ requestFilePaths dir listing env.isFile)
    (hcontent : env.content path = .ok v)
    (hval : validateRequest v = .error msg)
    (hfile : env.isFile path = true)
    (hrm : env.removeOk path = true) :
    processOne cfg env dir path
        = { path := path, success := false, events := [],
            deletion := DeleteOutcome.removed }
    ∧ processOne cfg env dir path ∈ handleExistingRequests cfg env dir listing
    ∧ ((handleExistingRequests cfg env dir listing).map (fun item => item.path))
        = requestFilePaths dir listing env.isFile := by
  have hpre := mem_requestFilePaths_startswith dir path listing env.isFile hmem
  have hitem : processOne cfg env dir path
      = { path := path, success := false, events := [],
          deletion := DeleteOutcome.removed } := by
    unfold processOne handleRequest deleteRequest
    rw [hcontent]
    simp [hval, hfile, hrm, hpre]
  refine ⟨hitem, ?_, drain_paths cfg env dir listing⟩
  unfold handleExistingRequests
  exact List.mem_map_of_mem _ hmem

theorem malformed_request_logged_deleted_no_side_effects_witness :
    processOne cfgUsersPush fsEnvMalformed "/mail" "/mail/a.yaml"
        = { path := "/mail/a.yaml", success := false, events := [],
            deletion := DeleteOutcome.removed }
    ∧ ((handleExistingRequests cfgUsersPush fsEnvMalformed "/mail"
          ["b.yaml", "a.yaml"]).map (fun item => item.path))
        = ["/mail/a.yaml", "/mail/b.yaml"] := by
  have h := malformed_request_logged_deleted_no_side_effects cfgUsersPush fsEnvMalformed
    "/mail" ["b.yaml", "a.yaml"] "/mail/a.yaml" (PyValue.str "oops")
    "Expected request to be a dictionary." (by decide) rfl rfl rfl rfl
  refine ⟨h.1, ?_⟩
  rw [h.2.2]
  decide

/-! ## Claim C7: idempotence and safety of the add-users step -/

theorem contains_iff_mem (l : List String) (a : String) : l.contains a = true ↔ a ∈ l := by
  simp [List.contains, List.elem_eq_mem]

theorem addUsersLoop_users (eU eP : List String) (co : Option String)
    (acc : Database) (l : List UserInfo) :
    (addUsersLoop eU eP co acc l).users
      = acc.users ++ (l.filter (fun i => !(eU.contains i.username))).map mkDbUser := by
  induction l generalizing acc with
  | nil => simp [addUsersLoop]
  | cons i rest ih =>
    simp only [addUsersLoop]
    cases co with
    | none =>
      by_cases hu : i.username ∈ eU <;>
        simp [hu, ih, List.filter_cons, List.append_assoc]
    | some c =>
      by_cases hu : i.username ∈ eU <;>
        by_cases hp : i.username ∈ eP <;>
          simp [hu, hp, ih, List.filter_cons, List.append_assoc]

theorem addUsersLoop_participations_none (eU eP : List String)
    (acc : Database) (l : List UserInfo) :
    (addUsersLoop eU eP Option.none acc l).participations = acc.participations := by
  induction l generalizing acc with
  | nil => simp [addUsersLoop]
  | cons i rest ih =>
    simp only [addUsersLoop]
    by_cases hu : i.username ∈ eU <;> simp [hu, ih]

theorem addUsersLoop_participations_some (eU eP : List String) (c : String)
    (acc : Database) (l : List UserInfo) :
    (addUsersLoop eU eP (Option.some c) acc l).participations
      = acc.participations
        ++ (l.filter (fun i => !(eP.contains i.username))).map (mkParticipation c) := by
  induction l generalizing acc with
  | nil => simp [addUsersLoop]
  | cons i rest ih =>
    simp only [addUsersLoop]
    by_cases hu : i.username ∈ eU <;>
      by_cases hp : i.username ∈ eP <;>
        simp [hu, hp, ih, List.filter_cons, List.append_assoc]

theorem addUsersLoop_contests (eU eP : List String) (co : Option String)
    (acc : Database) (l : List UserInfo) :
    (addUsersLoop eU eP co acc l).contests = acc.contests := by
  induction l generalizing acc with
  | nil => simp [addUsersLoop]
  | cons i rest ih =>
    simp only [addUsersLoop]
    cases co with
    | none => by_cases hu : i.username ∈ eU <;> simp [hu, ih]
    | some c =>
      by_cases hu : i.username ∈ eU <;>
        by_cases hp : i.username ∈ eP <;> simp [hu, hp, ih]

theorem addUsersLoop_tasks (eU eP : List String) (co : Option String)
    (acc : Database) (l : List UserInfo) :
    (addUsersLoop eU eP co acc l).tasks = acc.tasks := by
  induction l generalizing acc with
  | nil => simp [addUsersLoop]
  | cons i rest ih =>
    simp only [addUsersLoop]
    cases co with
    | none => by_cases hu : i.username ∈ eU <;> simp [hu, ih]
    | some c =>
      by_cases hu : i.username ∈ eU <;>
        by_cases hp : i.username ∈ eP <;> simp [hu, hp, ih]

theorem addUsersLoop_submissions (eU eP : List String) (co : Option String)
    (acc : Database) (l : List UserInfo) :
    (addUsersLoop eU eP co acc l).submissions = acc.submissions := by
  induction l generalizing acc with
  | nil => simp [addUsersLoop]
  | cons i rest ih =>
    simp only [addUsersLoop]
    cases co with
    | none => by_cases hu : i.username ∈ eU <;> simp [hu, ih]
    | some c =>
      by_cases hu : i.username ∈ eU <;>
        by_cases hp : i.username ∈ eP <;> simp [hu, hp, ih]

theorem addUsers_users (db : Database) (info : List UserInfo) (cn : Option String) :
    (addUsers db info cn).users
      = db.users ++ (info.filter
          (fun i => !((db.users.map (fun u => u.username)).contains i.username))).map
            mkDbUser := by
  unfold addUsers
  exact addUsersLoop_users _ _ _ _ _

theorem addUsers_contests (db : Database) (info : List UserInfo) (cn : Option String) :
    (addUsers db info cn).contests = db.contests := by
  unfold addUsers
  exact addUsersLoop_contests _ _ _ _ _

theorem addUsers_tasks (db : Database) (info : List UserInfo) (cn : Option String) :
    (addUsers db info cn).tasks = db.tasks := by
  unfold addUsers
  exact addUsersLoop_tasks _ _ _ _ _

theorem addUsers_submissions (db : Database) (info : List UserInfo) (cn : Option String) :
    (addUsers db info cn).submissions = db.submissions := by
  unfold addUsers
  exact addUsersLoop_submissions _ _ _ _ _

theorem addUsers_participations_none (db : Database) (info : List UserInfo) :
    (addUsers db info Option.none).participations = db.participations := by
  unfold addUsers
  exact addUsersLoop_participations_none _ _ _ _

theorem addUsers_participations_inactive (db : Database) (info : List UserInfo) (c : String)
    (hc : db.contests.contains c = false) :
    (addUsers db info (Option.some c)).participations = db.participations := by
  unfold addUsers
  simp only [hc, Bool.false_eq_true, if_false]
  exact addUsersLoop_participations_none _ _ _ _

theorem addUsers_participations_active (db : Database) (info : List UserInfo) (c : String)
    (hc : db.contests.contains c = true) :
    (addUsers db info (Option.some c)).participations
      = db.participations
        ++ (info.filter (fun i =>
            !(((db.participations.filter (fun p => p.contest == c)).map
                (fun p => p.username)).contains i.username))).map (mkParticipation c) := by
  unfold addUsers
  simp only [hc, if_true]
  exact addUsersLoop_participations_some _ _ _ _ _

/-- Claim C7: running the add-users step twice in a row with the same
users file (whose usernames are pairwise distinct) and the same contest
leaves the database exactly as after the first run; the first run never
modifies or deletes an existing user (the user table only grows at its
end), creates each user absent before the run exactly once, and creates
participations only for users not already participating in that contest —
already-participating users are untouched by both runs. -/
theorem add_users_idempotent_and_safe
    (db : Database) (info : List UserInfo) (cn : Option String)
    (hnd : (info.map (fun i => i.username)).Nodup) :
    addUsers (addUsers db info cn) info cn = addUsers db info cn
    ∧ (∃ created, (addUsers db info cn).users = db.users ++ created)
    ∧ (∀ i ∈ info,
        i.username ∉ db.users.map (fun u => u.username) →
        List.count i.username ((addUsers db info cn).users.map (fun u => u.username)) = 1)
    ∧ (∃ newParts, (addUsers db info cn).participations = db.participations ++ newParts
        ∧ ∀ p ∈ newParts, ∀ q ∈ db.participations,
            ¬(q.contest = p.contest ∧ q.username = p.username)) := by
  have husers := addUsers_users db info cn
  refine ⟨?_, ⟨_, husers⟩, ?_, ?_⟩
  · -- idempotence, field by field
    apply Database.ext
    · -- users
      rw [addUsers_users (addUsers db info cn) info cn]
      have hnil : info.filter
          (fun i => !(((addUsers db info cn).users.map
            (fun u => u.username)).contains i.username)) = [] := by
        rw [List.filter_eq_nil_iff]
        intro i hi
        have hmem : i.username ∈ (addUsers db info cn).users.map (fun u => u.username) := by
          rw [husers, List.map_append, List.mem_append]
          by_cases habs : i.username ∈ db.users.map (fun u => u.username)
          · exact Or.inl habs
          · refine Or.inr ?_
            rw [List.map_map]
            exact List.mem_map.mpr ⟨i, List.mem_filter.mpr ⟨hi, by simp [habs]⟩, rfl⟩
        simp [hmem]
      rw [hnil]
      simp
    · -- contests
      rw [addUsers_contests, addUsers_contests]
    · -- tasks
      rw [addUsers_tasks, addUsers_tasks]
    · -- participations
      cases cn with
      | none =>
        rw [addUsers_participations_none]
      | some c =>
        cases hc : db.contests.contains c with
        | false =>
          have hc1 : (addUsers db info (Option.some c)).contests.contains c = false := by
            rw [addUsers_contests]; exact hc
          rw [addUsers_participations_inactive _ info c hc1]
        | true =>
          have hc1 : (addUsers db info (Option.some c)).contests.contains c = true := by
            rw [addUsers_contests]; exact hc
          rw [addUsers_participations_active _ info c hc1]
          have hparts1 := addUsers_participations_active db info c hc
          have hnil : info.filter
              (fun i => !((((addUsers db info (Option.some c)).participations.filter
                (fun p => p.contest == c)).map (fun p => p.username)).contains
                  i.username)) = [] := by
            rw [List.filter_eq_nil_iff]
            intro i hi
            have hmem : i.username ∈ ((addUsers db info (Option.some c)).participations.filter
                (fun p => p.contest == c)).map (fun p => p.username) := by
              by_cases hp1 : i.username ∈ (db.participations.filter
                  (fun p => p.contest == c)).map (fun p => p.username)
              · obtain ⟨q, hqf, hqu⟩ := List.mem_map.mp hp1
                have hq2 : q ∈ (addUsers db info (Option.some c)).participations := by
                  rw [hparts1]
                  exact List.mem_append.mpr (Or.inl (List.mem_filter.mp hqf).1)
                exact List.mem_map.mpr
                  ⟨q, List.mem_filter.mpr ⟨hq2, (List.mem_filter.mp hqf).2⟩, hqu⟩
              · have hnew : mkParticipation c i ∈
                    (addUsers db info (Option.some c)).participations := by
                  rw [hparts1]
                  refine List.mem_append.mpr (Or.inr ?_)
                  exact List.mem_map.mpr ⟨i, List.mem_filter.mpr ⟨hi, by simp [hp1]⟩, rfl⟩
                exact List.mem_map.mpr
                  ⟨mkParticipation c i,
                   List.mem_filter.mpr ⟨hnew, by simp [mkParticipation]⟩, rfl⟩
            simp [hmem]
          rw [hnil]
          simp
    · -- submissions
      rw [addUsers_submissions, addUsers_submissions]
  · -- each absent user is created exactly once
    intro i hi habs
    rw [husers, List.map_append, List.count_append]
    have h0 : List.count i.username (db.users.map (fun u => u.username)) = 0 :=
      List.count_eq_zero.mpr habs
    have hmapmap : (((info.filter (fun i => !((db.users.map
          (fun u => u.username)).contains i.username))).map mkDbUser).map
            (fun u => u.username))
        = (info.filter (fun i => !((db.users.map
            (fun u => u.username)).contains i.username))).map (fun i => i.username) := by
      rw [List.map_map]
      rfl
    rw [hmapmap]
    have hfl_nodup : ((info.filter (fun i => !((db.users.map
        (fun u => u.username)).contains i.username))).map (fun i => i.username)).Nodup :=
      List.Nodup.sublist (List.Sublist.map _ (List.filter_sublist info)) hnd
    have hmemfl : i ∈ info.filter (fun i => !((db.users.map
        (fun u => u.username)).contains i.username)) :=
      List.mem_filter.mpr ⟨hi, by simp [habs]⟩
    have h1 : List.count i.username ((info.filter (fun i => !((db.users.map
        (fun u => u.username)).contains i.username))).map (fun i => i.username)) = 1 :=
      List.count_eq_one_of_mem hfl_nodup (List.mem_map.mpr ⟨i, hmemfl, rfl⟩)
    rw [h0, h1]
  · -- participations are only created for users not already participating
    cases cn with
    | none =>
      refine ⟨[], by rw [addUsers_participations_none]; simp, ?_⟩
      intro p hp
      exact absurd hp (List.not_mem_nil p)
    | some c =>
      cases hc : db.contests.contains c with
      | false =>
        refine ⟨[], by rw [addUsers_participations_inactive db info c hc]; simp, ?_⟩
        intro p hp
        exact absurd hp (List.not_mem_nil p)
      | true =>
        refine ⟨_, addUsers_participations_active db info c hc, ?_⟩
        rintro p hp q hq ⟨hqc, hqu⟩
        obtain ⟨i, hifl, rfl⟩ := List.mem_map.mp hp
        have hnot : i.username ∉ (db.participations.filter
            (fun p => p.contest == c)).map (fun p => p.username) := by
          have h2 := (List.mem_filter.mp hifl).2
          simpa using h2
        apply hnot
        refine List.mem_map.mpr ⟨q, List.mem_filter.mpr ⟨hq, ?_⟩, ?_⟩
        · simpa [mkParticipation] using hqc
        · simpa [mkParticipation] using hqu

theorem add_users_idempotent_and_safe_witness :
    addUsers (addUsers sampleDb sampleUsersInfo (Option.some "contests/A"))
        sampleUsersInfo (Option.some "contests/A")
      = addUsers sampleDb sampleUsersInfo (Option.some "contests/A")
    ∧ List.count "bob"
        ((addUsers sampleDb sampleUsersInfo
          (Option.some "contests/A")).users.map (fun u => u.username)) = 1 :=
  have h := add_users_idempotent_and_safe sampleDb sampleUsersInfo
    (Option.some "contests/A") (by decide)
  ⟨h.1,
   h.2.2.1 { username := "bob", password := "pw3", firstName := "Bob", lastName := "B",
             hidden := false, unrestricted := false } (by decide) (by decide)⟩

end ServerUtils
